import Mathlib

/-!
# Verification of the biogo/cluster specification against its source

This file shallowly embeds the parts of the biogo/cluster repository that the
spec talks about, and proves or refutes the spec's claims about them.

Conventions of the embedding:
* Go `float64` arithmetic is modelled exactly over `ℚ` (and over `ℝ` where the
  code calls `math.Exp`).  Division by zero, which yields Inf/NaN in Go, yields
  `0` in `ℚ`; no claim settled here depends on that corner.
* A Go runtime panic (index out of range) is modelled by an `Option` result of
  `none`; a Go `error` return is modelled by `Except`/`Option String` values.
* The external biogo/kdtree library is not part of this repository.  Its
  documented contract is used: `NearestSet` with a `DistKeeper(r)` collects
  exactly the indexed points whose squared distance to the query is at most
  `r`, and `Tree.Nearest` on a tree returns zero distance exactly when the
  query position coincides with a stored point (infinite distance on an empty
  tree).  Collation neighbourhoods are therefore modelled as filters over the
  point list.
-/

namespace BiogoCluster

/-! ## Mean-shift kernels: the shifters (meanshift/shifters of the current API)

`NewUniform(h)` stores a `DistKeeper(h*h)`; the keeper's heap initially holds a
single sentinel entry whose `Dist` field is the squared radius `h*h`.
`Uniform.Bandwidth` returns `s.hits.Heap[len(s.hits.Heap)-1].Dist`, and the
`Shift` loop always resets the heap to a single sentinel carrying that same
value, so the last entry's `Dist` is the construction-time `h*h` throughout.
`NewTruncGauss(h, oversample)` stores the configured `h` and a
`DistKeeper(h*h*oversample)`; `TruncGauss.Bandwidth` returns `s.h`. -/

/-- The `DistKeeper` heap of a `Uniform` shifter, modelled by the list of the
`Dist` fields of its entries. -/
structure Uniform where
  hitsHeap : List ℚ
deriving Repr, DecidableEq

def NewUniform (h : ℚ) : Uniform :=
  { hitsHeap := [h * h] }

/-- `Uniform.Bandwidth`: `s.hits.Heap[len(s.hits.Heap)-1].Dist`. -/
def Uniform.Bandwidth (s : Uniform) : ℚ :=
  s.hitsHeap.getD (s.hitsHeap.length - 1) 0

/-- The configuration of a `TruncGauss` shifter. -/
structure TruncGauss where
  h : ℚ
  hitsHeap : List ℚ
deriving Repr, DecidableEq

def NewTruncGauss (h oversample : ℚ) : TruncGauss :=
  { h := h, hitsHeap := [h * h * oversample] }

/-- `TruncGauss.Bandwidth`: `return s.h`. -/
def TruncGauss.Bandwidth (s : TruncGauss) : ℚ :=
  s.h

/-- The multiplicative factor `TruncGauss.Shift` applies to a neighbour of
weight `w` found at squared distance `dist2` from the mode:
`kfn := h.Weight * math.Exp(hit.Comparable.Distance(c)*inv)` with
`inv := 1 / (2 * s.h * s.h)`. -/
noncomputable def truncGaussKfn (h w dist2 : ℝ) : ℝ :=
  w * Real.exp (dist2 * (1 / (2 * h * h)))

/-- The neighbour factor as the spec words it (for comparison with
`truncGaussKfn`): "weight = neighbour weight × exp(−squaredDistance /
(2·bandwidth²))". -/
noncomputable def truncGaussKfnSpec (h w dist2 : ℝ) : ℝ :=
  w * Real.exp (-dist2 / (2 * h * h))

/-! ## Mean-shift engine construction and reporting (meanshift/meanshift.go)

`New` runs `k.Init(data)` before any length check; both `Uniform.Init` and
`TruncGauss.Init` end with `s.cn = make([]float64, len(s.centers[0].Point))`,
an unconditional read of element 0 of the just-built mode array.
`MeanShift.Total` starts with `p := make([]float64, len(ms.values[0].pnt))`,
an unconditional read of element 0 of the value array. -/

/-- The part of the `Uniform`/`TruncGauss` `Init` state the spec talks about:
one mode per data point tagged with its index, and the shift accumulator `cn`
sized from mode 0.  `none` models the index-out-of-range panic on
`s.centers[0]` for an empty data source. -/
def shifterInit (data : List (List ℚ)) : Option (List (ℕ × List ℚ) × List ℚ) :=
  let centers := data.enum
  match centers with
  | [] => none
  | c0 :: _ => some (centers, List.replicate c0.2.length 0)

/-- `meanshift.New(data, k, tol, maxIter)`: calls `k.Init(data)` and returns
the engine; there is no `n == 0` (or any other) validation, so the only way an
empty source stops construction is `Init`'s out-of-range access. -/
def msNew (data : List (List ℚ)) (tol : ℚ) (maxIter : ℤ) :
    Option ((List (ℕ × List ℚ) × List ℚ) × List (List ℚ) × ℚ × ℤ) :=
  (shifterInit data).map fun st => (st, data, tol, maxIter)

/-- `MeanShift.Total`: mean of all values coordinate-wise, then total sum of
squares about that mean.  `none` models the panic on `ms.values[0]` when the
value array is empty. -/
def msTotal (values : List (List ℚ)) : Option ℚ :=
  match values with
  | [] => none
  | v0 :: _ =>
    let n : ℚ := values.length
    let p := (List.range v0.length).map fun i =>
      ((values.map fun v => v.getD i 0).sum) * (1 / n)
    some ((values.map fun v =>
      ((List.range v0.length).map fun i => (p.getD i 0 - v.getD i 0) ^ 2).sum).sum)

/-! ## Theorems: kernels and construction -/

/-- C5, counterexample: `Uniform` constructed with bandwidth 2 reports
`Bandwidth() = 4`, the squared radius held by its `DistKeeper`, not the
bandwidth 2 itself as the claim states. -/
theorem uniform_bandwidth_counterexample :
    (NewUniform 2).Bandwidth = 4 ∧ (NewUniform 2).Bandwidth ≠ 2 := by
  constructor
  · simp [NewUniform, Uniform.Bandwidth]
    norm_num
  · simp [NewUniform, Uniform.Bandwidth]

/-- C5, amended: `Uniform.Bandwidth` returns `h*h` — the `Dist` of the largest
kept entry of its `DistKeeper`, which is the squared query radius — while
`TruncGauss.Bandwidth` returns the configured `h` itself, not the widened
query radius `h*h*oversample`. -/
theorem bandwidth_reported_values (h oversample : ℚ) :
    (NewUniform h).Bandwidth = h * h ∧
    (NewTruncGauss h oversample).Bandwidth = h := by
  constructor <;> rfl

/-- C4: in `TruncGauss.Shift` the exponent applied to the squared distance is
positive, not negative.  With bandwidth 1 and point weight 1, a neighbour at
squared distance 2 receives factor `exp 1`, strictly more than the factor
`exp 0 = 1` of a coincident neighbour, and different from the
`exp (−1)` the spec's formula prescribes. -/
theorem truncGauss_kfn_sign_bug :
    truncGaussKfn 1 1 0 < truncGaussKfn 1 1 2 ∧
    truncGaussKfn 1 1 2 ≠ truncGaussKfnSpec 1 1 2 := by
  have h02 : truncGaussKfn 1 1 0 = Real.exp 0 := by
    unfold truncGaussKfn; norm_num
  have h2 : truncGaussKfn 1 1 2 = Real.exp 1 := by
    unfold truncGaussKfn; norm_num
  have hs : truncGaussKfnSpec 1 1 2 = Real.exp (-1) := by
    unfold truncGaussKfnSpec; norm_num
  constructor
  · rw [h02, h2]
    exact Real.exp_lt_exp.mpr (by norm_num)
  · rw [h2, hs]
    intro h
    have := Real.exp_injective h.symm
    norm_num at this

/-- C10: the mean-shift construction surface has no guard against an empty
data source.  `New` reaches `Init`, whose sizing of the accumulator reads
element 0 of the empty mode array (out of bounds, modelled as `none`), and
`Total` likewise reads element 0 of the empty value array. -/
theorem meanshift_empty_data_unguarded :
    shifterInit [] = none ∧ msNew [] 1 10 = none ∧ msTotal [] = none := by
  refine ⟨rfl, rfl, rfl⟩

/-! ## The k-means engine (the ℝ² revision shipped in the sources)

Types `val`, `value`, `center` and `Kmeans` mirror the source structs; a Go
nil `means` slice (Seed never called) is modelled as `none`. -/

structure KVal where
  x : ℚ
  y : ℚ
deriving Repr, DecidableEq, Inhabited

structure KValue where
  val : KVal
  cluster : ℕ
deriving Repr, DecidableEq, Inhabited

structure KCenter where
  val : KVal
  count : ℕ
deriving Repr, DecidableEq, Inhabited

structure Kmeans where
  values : List KValue
  means : Option (List KCenter)
deriving Repr, DecidableEq

/-- `NewKmeans` with `convert`: every data point becomes a `value` with the
zero-valued cluster field; `means` starts as the nil slice. -/
def NewKmeans (data : List (ℚ × ℚ)) : Kmeans :=
  { values := data.map fun p => { val := { x := p.1, y := p.2 }, cluster := 0 },
    means := none }

/-- The squared Euclidean distance `xd*xd + yd*yd` used throughout the k-means
source. -/
def sqd2 (a b : KVal) : ℚ :=
  (a.x - b.x) * (a.x - b.x) + (a.y - b.y) * (a.y - b.y)

/-- The scan loop of `Kmeans.nearest`: `i` indexes the next unscanned center,
`(c, mn)` is the best candidate so far, and a candidate is replaced only on a
strictly smaller squared distance (`if d < min`). -/
def nearestLoop (v : KVal) : ℕ → ℕ → ℚ → List KCenter → ℕ × ℚ
  | _, c, mn, [] => (c, mn)
  | i, c, mn, m :: ms =>
    if sqd2 v m.val < mn then nearestLoop v (i + 1) i (sqd2 v m.val) ms
    else nearestLoop v (i + 1) c mn ms

/-- `Kmeans.nearest`: candidate starts at center 0, the loop scans centers
`1..`.  The source never calls it with an empty center list (`Cluster` guards
`len(km.means) == 0`, `Seed` fills `means[0]` first); that case is given an
arbitrary value. -/
def nearest (means : List KCenter) (v : KVal) : ℕ × ℚ :=
  match means with
  | [] => (0, 0)
  | m0 :: rest => nearestLoop v 1 0 (sqd2 v m0.val) rest

/-- The cumulative-sum inversion loop of `Kmeans.Seed`:
`for sum = d[0]; sum < target; sum += d[j] { j++ }`.  The empty-tail case is
unreachable in the source because `target < d.sum`. -/
def cumGo (target : ℚ) : ℚ → ℕ → List ℚ → ℕ
  | _, j, [] => j
  | sum, j, x :: xs => if sum < target then cumGo target (sum + x) (j + 1) xs else j

def cumInvert (d : List ℚ) (target : ℚ) : ℕ :=
  match d with
  | [] => 0
  | d0 :: ds => cumGo target d0 0 ds

/-- `Kmeans.Seed` of the shipped ℝ² revision.  `none` models the two runtime
panics: `k = 0` (writing `km.means[0]` into a length-0 slice) and an empty
value list (`rand.Intn(0)`).  `randIdx` models `rand.Intn(len(km.values))`
(reduced mod `n`), `randFs` the successive `rand.Float64()` draws.  Note that
the `nearest` calls scan the whole zero-initialised `means` slice, exactly as
the source does. -/
def kmSeed (km : Kmeans) (k : ℕ) (randIdx : ℕ) (randFs : List ℚ) : Option Kmeans :=
  match k, km.values with
  | 0, _ => none
  | _, [] => none
  | k' + 1, _ :: _ =>
    let values := km.values
    let means0 := (List.replicate (k' + 1) ({ val := { x := 0, y := 0 }, count := 0 } : KCenter)).set 0
      { val := (values.getD (randIdx % values.length) default).val, count := 0 }
    if k' = 0 then some { km with means := some means0 }
    else
      some { km with means := some ((List.range k').foldl (fun means t =>
        let d := values.map fun v => (nearest means v.val).2
        let target := randFs.getD t 0 * d.sum
        let j := cumInvert d target
        means.set (t + 1) { val := (values.getD j default).val, count := 0 }) means0) }

/-- The assignment pass of `Kmeans.Cluster`: every value's cluster field is set
to the index of its nearest center. -/
def kmAssign (means : List KCenter) (values : List KValue) : List KValue :=
  values.map fun v => { v with cluster := (nearest means v.val).1 }

/-- The recentering pass of `Kmeans.Cluster`: zero the `k` centers, accumulate
member sums and counts, then scale by `inv := 1/count`.  (In `ℚ`, `1/0 = 0`
where Go float division yields Inf; no claim settled here touches the
empty-cluster corner, which the spec itself flags as undefined.) -/
def kmRecenter (k : ℕ) (values : List KValue) : List KCenter :=
  (List.range k).map fun i =>
    let members := values.filter fun v => v.cluster = i
    let inv : ℚ := 1 / (members.length : ℚ)
    { val := { x := (members.map fun v => v.val.x).sum * inv,
               y := (members.map fun v => v.val.y).sum * inv },
      count := members.length }

/-- The Lloyd loop of `Kmeans.Cluster`: recenter, reassign, stop when no
cluster field changed.  The source has no iteration cap; the fuel argument
only makes the model total, `none` meaning the loop is still running. -/
def kmLloyd (k : ℕ) : ℕ → List KValue → Option (List KValue × List KCenter)
  | 0, _ => none
  | fuel + 1, values =>
    let means := kmRecenter k values
    let values' := kmAssign means values
    if values'.map KValue.cluster = values.map KValue.cluster then some (values', means)
    else kmLloyd k fuel values'

/-- `Kmeans.Cluster`: fails with the `"kmeans: no centers"` error before any
mutation when the center slice has length 0 (in particular whenever `Seed` was
never called); otherwise runs the initial assignment and the Lloyd loop.  The
result pairs the engine state with the returned error. -/
def kmCluster (km : Kmeans) (fuel : ℕ) : Option (Kmeans × Option String) :=
  let means := km.means.getD []
  if means.length = 0 then some (km, some "kmeans: no centers")
  else
    (kmLloyd means.length fuel (kmAssign means km.values)).map fun r =>
      ({ values := r.1, means := some r.2 }, none)

/-- `Kmeans.Within`: `nil` (here `none`) exactly when `km.means == nil`;
otherwise one accumulator per center, each value contributing the squared
distance to the center its cluster field currently names.  A cluster field
beyond the center count would panic (`none`). -/
def kmWithin (km : Kmeans) : Option (List ℚ) :=
  match km.means with
  | none => none
  | some means =>
    if km.values.all fun v => v.cluster < means.length then
      some ((List.range means.length).map fun i =>
        ((km.values.filter fun v => v.cluster = i).map fun v =>
          sqd2 (means.getD v.cluster default).val v.val).sum)
    else none

/-! ## The spec-modelled `Seed` of the current k-means API -/

/-- The squared distance from `v` to the nearest already-chosen center
(spec §4.4). -/
def nearestChosenDist (chosen : List KCenter) (v : KVal) : ℚ :=
  match chosen with
  | [] => 0
  | c :: cs => (cs.map fun m => sqd2 v m.val).foldl min (sqd2 v c.val)

/-- Modelled from the spec: `Seed` of the current k-means package (the engine
the kmeans tests exercise through `kmeans.New`) is not among the sources —
only the superseded ℝ² revision is, and it returns no error.  Spec §4.4/§6:
"`seed(k)` with `1 ≤ k ≤ n`, else fails"; center 0 is a uniformly random data
point; each subsequent center is a data point sampled with probability
proportional to its squared distance to the nearest already-chosen center,
via cumulative-sum inversion against a uniform draw; "`k == 1` returns
immediately after the single random center." -/
def kmSeedChecked (km : Kmeans) (k : ℤ) (randIdx : ℕ) (randFs : List ℚ) :
    Except String Kmeans :=
  if k < 1 ∨ (km.values.length : ℤ) < k then
    Except.error "kmeans: k out of range [1, n]"
  else
    let n := km.values.length
    let c0 : KCenter := { val := (km.values.getD (randIdx % n) default).val, count := 0 }
    if k = 1 then Except.ok { km with means := some [c0] }
    else
      Except.ok { km with means := some ((List.range (k.toNat - 1)).foldl (fun chosen t =>
        let d := km.values.map fun v => nearestChosenDist chosen v.val
        let target := randFs.getD t 0 * d.sum
        let j := cumInvert d target
        chosen ++ [{ val := (km.values.getD j default).val, count := 0 }]) [c0]) }

/-! ## Theorems: k-means -/

/-- C7: calling `Cluster` when `Seed` was never called (`means` is the nil
slice) fails with the "no centers" error, and the engine state is returned
untouched — the guard runs before any assignment or recentering. -/
theorem kmCluster_not_seeded (km : Kmeans) (fuel : ℕ) (h : km.means = none) :
    kmCluster km fuel = some (km, some "kmeans: no centers") := by
  unfold kmCluster
  rw [h]
  rfl

/-- Witness for C7 at a concrete two-point engine. -/
theorem kmCluster_not_seeded_witness :
    (NewKmeans [((0 : ℚ), (0 : ℚ)), (3, 4)]).means = none ∧
    kmCluster (NewKmeans [((0 : ℚ), (0 : ℚ)), (3, 4)]) 5 =
      some (NewKmeans [((0 : ℚ), (0 : ℚ)), (3, 4)], some "kmeans: no centers") :=
  ⟨rfl, kmCluster_not_seeded _ 5 rfl⟩

/-- A concrete two-point engine used by several witnesses. -/
def kmTwoPoint : Kmeans := NewKmeans [((0 : ℚ), (0 : ℚ)), (3, 4)]

/-- The state of `kmTwoPoint` after `Seed(1)` chose data point 0. -/
def kmTwoPointSeeded : Kmeans :=
  { values := [{ val := { x := 0, y := 0 }, cluster := 0 },
               { val := { x := 3, y := 4 }, cluster := 0 }],
    means := some [{ val := { x := 0, y := 0 }, count := 0 }] }

/-- C8: on the k-means engine, `Within` is already non-nil after `Seed` alone,
before `Cluster` has ever run — contradicting both the claim and the
function's own doc comment ("Returns nil if Cluster has not been called").
After `Seed(1)` on the two-point engine it returns the one-entry slice
`[25]`. -/
theorem kmWithin_after_seed_nonnil :
    kmSeed kmTwoPoint 1 0 [] = some kmTwoPointSeeded ∧
    kmWithin kmTwoPointSeeded = some [25] ∧
    kmWithin kmTwoPointSeeded ≠ none := by
  refine ⟨rfl, ?_, ?_⟩
  · simp [kmTwoPointSeeded, kmWithin, sqd2, List.range_succ, List.filter_cons]
    norm_num
  · simp [kmTwoPointSeeded, kmWithin]

/-- The single center `Seed(1)` leaves behind: the randomly chosen data
point. -/
def seedSingleCenter (km : Kmeans) (r : ℕ) : List KCenter :=
  [{ val := (km.values.getD (r % km.values.length) default).val, count := 0 }]

/-- C6: the spec-modelled `Seed` fails exactly for `k` outside `[1, n]` and
succeeds for every `k` inside; with `k = 1` it returns immediately after
placing the single randomly chosen center. -/
theorem kmSeedChecked_range (km : Kmeans) (k : ℤ) (r : ℕ) (fs : List ℚ)
    (hn : 1 ≤ km.values.length) :
    ((∃ e, kmSeedChecked km k r fs = Except.error e) ↔
      (k < 1 ∨ (km.values.length : ℤ) < k)) ∧
    kmSeedChecked km 1 r fs =
      Except.ok { km with means := some (seedSingleCenter km r) } := by
  constructor
  · constructor
    · rintro ⟨e, he⟩
      by_contra hcon
      unfold kmSeedChecked at he
      rw [if_neg hcon] at he
      split at he <;> simp at he
    · intro hk
      exact ⟨_, by unfold kmSeedChecked; rw [if_pos hk]⟩
  · have hguard : ¬((1 : ℤ) < 1 ∨ (km.values.length : ℤ) < 1) := by
      push_neg
      exact ⟨le_refl _, by exact_mod_cast hn⟩
    unfold kmSeedChecked seedSingleCenter
    rw [if_neg hguard, if_pos rfl]

/-- Witness for C6 at the two-point engine with `k = 3` (out of range). -/
theorem kmSeedChecked_range_witness :
    1 ≤ kmTwoPoint.values.length ∧
    (((∃ e, kmSeedChecked kmTwoPoint 3 0 [] = Except.error e) ↔
        ((3 : ℤ) < 1 ∨ (kmTwoPoint.values.length : ℤ) < 3)) ∧
      kmSeedChecked kmTwoPoint 1 0 [] =
        Except.ok { kmTwoPoint with means := some (seedSingleCenter kmTwoPoint 0) }) :=
  ⟨by simp [kmTwoPoint, NewKmeans],
   kmSeedChecked_range kmTwoPoint 3 0 [] (by simp [kmTwoPoint, NewKmeans])⟩

/-- Behaviour of the `nearest` scan loop: either no scanned center beats the
incoming candidate (which is then returned unchanged, all scanned distances
being at least `mn`), or the result is the scanned center at relative index
`k` whose distance is strictly below `mn`, strictly below every earlier
scanned distance, and at most every later one. -/
theorem nearestLoop_spec (v : KVal) (rest : List KCenter) :
    ∀ (i c : ℕ) (mn : ℚ),
      (nearestLoop v i c mn rest = (c, mn) ∧
        ∀ k, k < rest.length → mn ≤ sqd2 v (rest.getD k default).val) ∨
      (∃ k, k < rest.length ∧
        (nearestLoop v i c mn rest).1 = i + k ∧
        (nearestLoop v i c mn rest).2 = sqd2 v (rest.getD k default).val ∧
        (nearestLoop v i c mn rest).2 < mn ∧
        (∀ l, l < k → (nearestLoop v i c mn rest).2 < sqd2 v (rest.getD l default).val) ∧
        (∀ l, k < l → l < rest.length →
          (nearestLoop v i c mn rest).2 ≤ sqd2 v (rest.getD l default).val)) := by
  induction rest with
  | nil =>
    intro i c mn
    exact Or.inl ⟨rfl, fun k hk => absurd hk (by simp)⟩
  | cons m ms ih =>
    intro i c mn
    by_cases hd : sqd2 v m.val < mn
    · have hres : nearestLoop v i c mn (m :: ms) = nearestLoop v (i + 1) i (sqd2 v m.val) ms := by
        simp [nearestLoop, hd]
      rcases ih (i + 1) i (sqd2 v m.val) with ⟨heq, hall⟩ | ⟨k, hk, h1, h2, h3, h4, h5⟩
      · refine Or.inr ⟨0, by simp, ?_, ?_, ?_, ?_, ?_⟩
        · rw [hres, heq]; simp
        · rw [hres, heq]; simp
        · rw [hres, heq]; exact hd
        · intro l hl; omega
        · intro l hl hlen
          rw [hres, heq]
          obtain ⟨l', rfl⟩ : ∃ l', l = l' + 1 := ⟨l - 1, by omega⟩
          simpa using hall l' (by simpa using hlen)
      · refine Or.inr ⟨k + 1, by simpa using hk, ?_, ?_, ?_, ?_, ?_⟩
        · rw [hres, h1]; omega
        · rw [hres]; simpa using h2
        · rw [hres]; exact h3.trans hd
        · intro l hl
          rw [hres]
          match l with
          | 0 => simpa using h3
          | l' + 1 => simpa using h4 l' (by omega)
        · intro l hl hlen
          rw [hres]
          obtain ⟨l', rfl⟩ : ∃ l', l = l' + 1 := ⟨l - 1, by omega⟩
          simpa using h5 l' (by omega) (by simpa using hlen)
    · have hres : nearestLoop v i c mn (m :: ms) = nearestLoop v (i + 1) c mn ms := by
        simp [nearestLoop, hd]
      rcases ih (i + 1) c mn with ⟨heq, hall⟩ | ⟨k, hk, h1, h2, h3, h4, h5⟩
      · refine Or.inl ⟨by rw [hres, heq], ?_⟩
        intro k hken
        match k with
        | 0 => simpa using le_of_not_lt hd
        | k' + 1 => simpa using hall k' (by simpa using hken)
      · refine Or.inr ⟨k + 1, by simpa using hk, ?_, ?_, ?_, ?_, ?_⟩
        · rw [hres, h1]; omega
        · rw [hres]; simpa using h2
        · rw [hres]; exact h3
        · intro l hl
          rw [hres]
          match l with
          | 0 => simpa using h3.trans_le (le_of_not_lt hd)
          | l' + 1 => simpa using h4 l' (by omega)
        · intro l hl hlen
          rw [hres]
          obtain ⟨l', rfl⟩ : ∃ l', l = l' + 1 := ⟨l - 1, by omega⟩
          simpa using h5 l' (by omega) (by simpa using hlen)

/-- C9: in the Lloyd assignment step every value's cluster field is set to
`(nearest means v).1`, and for a non-empty center list that index is in
range, attains the returned minimal squared distance, no center is strictly
closer, and any center at the same distance has an index at least as large —
equal-distance ties resolve to the smallest center index. -/
theorem nearest_lowest_index (means : List KCenter) (v : KVal) (h : means ≠ []) :
    (nearest means v).1 < means.length ∧
    sqd2 v (means.getD (nearest means v).1 default).val = (nearest means v).2 ∧
    (∀ k, k < means.length → (nearest means v).2 ≤ sqd2 v (means.getD k default).val) ∧
    (∀ k, k < means.length → sqd2 v (means.getD k default).val = (nearest means v).2 →
      (nearest means v).1 ≤ k) ∧
    (∀ vs : List KValue,
      (kmAssign means vs).map KValue.cluster = vs.map fun w => (nearest means w.val).1) := by
  match means, h with
  | m0 :: rest, _ =>
    have hres : nearest (m0 :: rest) v = nearestLoop v 1 0 (sqd2 v m0.val) rest := rfl
    rcases nearestLoop_spec v rest 1 0 (sqd2 v m0.val) with ⟨heq, hall⟩ | ⟨k, hk, h1, h2, h3, h4, h5⟩
    · refine ⟨?_, ?_, ?_, ?_, ?_⟩
      · rw [hres, heq]; simp
      · rw [hres, heq]; simp
      · intro j hj
        rw [hres, heq]
        match j with
        | 0 => simp
        | j' + 1 => simpa using hall j' (by simpa using hj)
      · intro j hj heqd
        rw [hres, heq]
        omega
      · intro vs; simp [kmAssign]
    · refine ⟨?_, ?_, ?_, ?_, ?_⟩
      · rw [hres, h1]; simp only [List.length_cons]; omega
      · rw [hres, h1]
        have : (1 + k) = k + 1 := by omega
        rw [this]
        simpa using h2.symm
      · intro j hj
        rw [hres]
        match j with
        | 0 => simpa using (h3.le)
        | j' + 1 =>
          rcases lt_trichotomy j' k with hlt | hrfl | hgt
          · simpa using (h4 j' hlt).le
          · subst hrfl; simpa using h2.le
          · simpa using h5 j' hgt (by simpa using hj)
      · intro j hj heqd
        rw [hres, h1]
        match j with
        | 0 =>
          exfalso
          rw [hres] at heqd
          simp only [List.getD_cons_zero] at heqd
          exact absurd (lt_of_lt_of_eq h3 heqd) (lt_irrefl _)
        | j' + 1 =>
          rcases lt_or_le j' k with hlt | hge
          · exfalso
            rw [hres] at heqd
            simp only [List.getD_cons_succ] at heqd
            exact absurd (lt_of_lt_of_eq (h4 j' hlt) heqd) (lt_irrefl _)
          · omega
      · intro vs; simp [kmAssign]

/-- Two equidistant centers for the C9 witness. -/
def tieMeans : List KCenter :=
  [{ val := { x := 0, y := 0 }, count := 0 }, { val := { x := 2, y := 0 }, count := 0 }]

/-- Witness for C9: a point exactly halfway between two centers. -/
theorem nearest_lowest_index_witness :
    tieMeans ≠ [] ∧
    ((nearest tieMeans { x := 1, y := 0 }).1 < tieMeans.length ∧
      sqd2 { x := 1, y := 0 }
          (tieMeans.getD (nearest tieMeans { x := 1, y := 0 }).1 default).val =
        (nearest tieMeans { x := 1, y := 0 }).2 ∧
      (∀ k, k < tieMeans.length →
        (nearest tieMeans { x := 1, y := 0 }).2 ≤
          sqd2 { x := 1, y := 0 } (tieMeans.getD k default).val) ∧
      (∀ k, k < tieMeans.length →
        sqd2 { x := 1, y := 0 } (tieMeans.getD k default).val =
          (nearest tieMeans { x := 1, y := 0 }).2 →
        (nearest tieMeans { x := 1, y := 0 }).1 ≤ k) ∧
      (∀ vs : List KValue,
        (kmAssign tieMeans vs).map KValue.cluster =
          vs.map fun w => (nearest tieMeans w.val).1)) :=
  ⟨by simp [tieMeans], nearest_lowest_index tieMeans { x := 1, y := 0 } (by simp [tieMeans])⟩

/-! ## The `MeanShift.Cluster` shift loop (current revision)

```
var err error
for i := 0; ; i++ {
    delta := ms.k.Shift()
    if delta <= ms.tol { break }
    if i > ms.maxIter {
        err = fmt.Errorf("meanshift: exceeded maximum iterations: delta=%f", delta)
    }
}
// collation: cen = ms.k.Centers(); ci/centers/values rebuilt from cen
return err
```

The `Shifter` is an interface; it is modelled as an arbitrary state type `σ`
with a step function `shift : σ → σ × ℚ` returning the new state and the
`delta`.  The loop has no exit other than `delta ≤ tol`: when `i` passes
`maxIter` it only records the error value.  The `fuel` argument makes the
model total; a result of `none` means the loop is still running after `fuel`
invocations of `Shift`. -/

def msClusterLoop {σ : Type} (shift : σ → σ × ℚ) (tol : ℚ) (maxIter : ℤ) :
    ℕ → σ → ℤ → Option ℚ → Option (σ × Option ℚ)
  | 0, _, _, _ => none
  | fuel + 1, s, i, err =>
    if (shift s).2 ≤ tol then some ((shift s).1, err)
    else msClusterLoop shift tol maxIter fuel (shift s).1 (i + 1)
      (if maxIter < i then some (shift s).2 else err)

/-- The shifter state after `n` invocations of `Shift`. -/
def msState {σ : Type} (shift : σ → σ × ℚ) (s0 : σ) : ℕ → σ
  | 0 => s0
  | n + 1 => (shift (msState shift s0 n)).1

/-- The `delta` returned by the `(n+1)`-st invocation of `Shift`. -/
def msDelta {σ : Type} (shift : σ → σ × ℚ) (s0 : σ) (n : ℕ) : ℚ :=
  (shift (msState shift s0 n)).2

/-- `MeanShift.Cluster`: run the shift loop from the initial shifter state,
then build the result from `ms.k.Centers()` applied to the final state — the
same collation call on both the converged and the cap-exceeded path — and
return it alongside the recorded error. -/
def msCluster {σ α : Type} (shift : σ → σ × ℚ) (centersOf : σ → α)
    (tol : ℚ) (maxIter : ℤ) (s0 : σ) (fuel : ℕ) : Option (α × Option ℚ) :=
  (msClusterLoop shift tol maxIter fuel s0 0 none).map fun r => (centersOf r.1, r.2)

theorem msState_shift {σ : Type} (shift : σ → σ × ℚ) (s : σ) (n : ℕ) :
    msState shift (shift s).1 n = msState shift s (n + 1) := by
  induction n with
  | zero => rfl
  | succ n ih => simp [msState, ih]

theorem msDelta_shift {σ : Type} (shift : σ → σ × ℚ) (s : σ) (n : ℕ) :
    msDelta shift (shift s).1 n = msDelta shift s (n + 1) := by
  simp [msDelta, msState_shift]

/-- Closed form of the shift loop on a trajectory whose first convergent
delta is the `(m+1)`-st: the loop runs exactly `m + 1` shifts, ends in state
`msState (m+1)`, and the returned error is the delta of the last
non-convergent shift when its index passed the cap, the incoming error
otherwise. -/
theorem msClusterLoop_formula {σ : Type} (shift : σ → σ × ℚ) (tol : ℚ)
    (maxIter : ℤ) (m : ℕ) :
    ∀ (s : σ) (i : ℤ) (err : Option ℚ) (fuel : ℕ), m < fuel →
      (∀ n, n < m → tol < msDelta shift s n) → msDelta shift s m ≤ tol →
      msClusterLoop shift tol maxIter fuel s i err =
        some (msState shift s (m + 1),
          if m = 0 then err
          else if maxIter < i + (m : ℤ) - 1 then some (msDelta shift s (m - 1)) else err) := by
  induction m with
  | zero =>
    intro s i err fuel hfuel hlt hconv
    match fuel, hfuel with
    | fuel + 1, _ =>
      show (if (shift s).2 ≤ tol then _ else _) = _
      rw [if_pos (show (shift s).2 ≤ tol from hconv)]
      simp [msState]
  | succ m ih =>
    intro s i err fuel hfuel hlt hconv
    match fuel, hfuel with
    | fuel + 1, hfuel =>
      have h0 : tol < (shift s).2 := hlt 0 (Nat.succ_pos m)
      show (if (shift s).2 ≤ tol then _ else _) = _
      rw [if_neg (not_le.mpr h0)]
      rw [ih (shift s).1 (i + 1) _ fuel (by omega)
        (fun n hn => by rw [msDelta_shift]; exact hlt (n + 1) (by omega))
        (by rw [msDelta_shift]; exact hconv)]
      rw [msState_shift]
      match m with
      | 0 =>
        simp only [if_pos rfl, Nat.succ_ne_zero, if_neg (Nat.one_ne_zero)]
        norm_num
        rfl
      | m + 1 =>
        have hm1 : (m + 1 : ℕ) ≠ 0 := Nat.succ_ne_zero m
        have hm2 : (m + 2 : ℕ) ≠ 0 := Nat.succ_ne_zero (m + 1)
        rw [if_neg hm1, if_neg hm2, msDelta_shift]
        have harith : i + 1 + ((m + 1 : ℕ) : ℤ) - 1 = i + ((m + 2 : ℕ) : ℤ) - 1 := by
          push_cast; ring
        rw [harith]
        by_cases hc : maxIter < i + ((m + 2 : ℕ) : ℤ) - 1
        · rw [if_pos hc, if_pos hc]
          norm_num
        · rw [if_neg hc, if_neg hc]
          have : ¬ maxIter < i := by push_cast at hc ⊢; omega
          rw [if_neg this]

/-- C2: when the shift loop converges only after the iteration count has
passed the cap, `Cluster` returns the recorded non-fatal error carrying the
delta of the last non-convergent shift, and the result is built by the same
`Centers()` collation of the same final state as an error-free run of the
same trajectory under a large enough cap. -/
theorem msCluster_cap_exceeded_nonfatal {σ α : Type} (shift : σ → σ × ℚ)
    (centersOf : σ → α) (tol : ℚ) (maxIter maxIter' : ℤ) (s0 : σ) (fuel m : ℕ)
    (hm : 1 ≤ m)
    (hconv : msDelta shift s0 m ≤ tol)
    (hmin : ∀ n, n < m → tol < msDelta shift s0 n)
    (hfuel : m < fuel)
    (hcap : maxIter < (m : ℤ) - 1)
    (hcap' : (m : ℤ) - 1 ≤ maxIter') :
    msCluster shift centersOf tol maxIter s0 fuel =
      some (centersOf (msState shift s0 (m + 1)), some (msDelta shift s0 (m - 1))) ∧
    msCluster shift centersOf tol maxIter' s0 fuel =
      some (centersOf (msState shift s0 (m + 1)), none) := by
  constructor
  · unfold msCluster
    rw [msClusterLoop_formula shift tol maxIter m s0 0 none fuel hfuel hmin hconv]
    rw [if_neg (by omega), if_pos (by omega)]
    rfl
  · unfold msCluster
    rw [msClusterLoop_formula shift tol maxIter' m s0 0 none fuel hfuel hmin hconv]
    rw [if_neg (by omega), if_neg (by omega)]
    rfl

/-- The concrete shifter used by the mean-shift loop witnesses: state `n`
counts the shifts; the first three deltas are 1, later ones 0. -/
def witnessShift (n : ℕ) : ℕ × ℚ :=
  (n + 1, if n < 3 then 1 else 0)

/-- Witness for C2: tolerance 0, cap 0; convergence at the fourth shift, two
iterations past the cap; the relaxed cap 5 gives the same collation output
with no error. -/
theorem msCluster_cap_exceeded_nonfatal_witness :
    (1 ≤ 3 ∧ msDelta witnessShift 0 3 ≤ 0 ∧ (∀ n, n < 3 → (0 : ℚ) < msDelta witnessShift 0 n) ∧
      3 < 5 ∧ (0 : ℤ) < (3 : ℤ) - 1 ∧ ((3 : ℕ) : ℤ) - 1 ≤ 5) ∧
    msCluster witnessShift (fun s => [s]) 0 0 0 5 =
      some ([msState witnessShift 0 4], some (msDelta witnessShift 0 2)) ∧
    msCluster witnessShift (fun s => [s]) 0 5 0 5 =
      some ([msState witnessShift 0 4], none) := by
  have hconv : msDelta witnessShift 0 3 ≤ 0 := by
    simp [msDelta, msState, witnessShift]
  have hmin : ∀ n, n < 3 → (0 : ℚ) < msDelta witnessShift 0 n := by
    intro n hn
    interval_cases n <;> simp [msDelta, msState, witnessShift]
  refine ⟨⟨by norm_num, hconv, hmin, by norm_num, by norm_num, by norm_num⟩, ?_⟩
  exact msCluster_cap_exceeded_nonfatal witnessShift (fun s => [s]) 0 0 5 0 5 3
    (by norm_num) hconv hmin (by norm_num) (by norm_num) (by norm_num)

/-- C3, amended: the shift loop's only exit is convergence.  Along any
trajectory whose deltas stay above the tolerance, the loop is still running
after `fuel` invocations of `Shift`, for every `fuel` and every cap — the
iteration cap records an error but never stops the shifting. -/
theorem msClusterLoop_never_stops_on_cap {σ : Type} (shift : σ → σ × ℚ)
    (tol : ℚ) (maxIter : ℤ) :
    ∀ (fuel : ℕ) (s : σ) (i : ℤ) (err : Option ℚ),
      (∀ n, n < fuel → tol < msDelta shift s n) →
      msClusterLoop shift tol maxIter fuel s i err = none := by
  intro fuel
  induction fuel with
  | zero => intro s i err _; rfl
  | succ fuel ih =>
    intro s i err hlt
    have h0 : tol < (shift s).2 := hlt 0 (Nat.succ_pos fuel)
    show (if (shift s).2 ≤ tol then _ else _) = none
    rw [if_neg (not_le.mpr h0)]
    exact ih (shift s).1 (i + 1) _ fun n hn => by
      rw [msDelta_shift]; exact hlt (n + 1) (by omega)

/-- Witness for the amended C3: a trajectory of constant delta 1 against
tolerance 0 is still shifting after 7 invocations. -/
theorem msClusterLoop_never_stops_on_cap_witness :
    (∀ n, n < 7 → (0 : ℚ) < msDelta (fun n : ℕ => (n + 1, 1)) 0 n) ∧
    msClusterLoop (fun n : ℕ => (n + 1, 1)) 0 0 7 0 0 none = none := by
  have h : ∀ n, n < 7 → (0 : ℚ) < msDelta (fun n : ℕ => (n + 1, 1)) 0 n := by
    intro n _
    simp [msDelta]
  exact ⟨h, msClusterLoop_never_stops_on_cap (fun n : ℕ => (n + 1, 1)) 0 0 7 0 0 none h⟩

/-- C3, counterexample: with cap `maxIter = 0` and a shifter whose delta never
reaches the tolerance, `Cluster` has invoked `Shift` 50 times and is still
looping — there is no bound of `maxIterations` plus a small constant on the
number of `shift()` invocations. -/
theorem msClusterLoop_counterexample :
    msClusterLoop (fun n : ℕ => (n + 1, 1)) 0 0 50 0 0 none = none := by
  have grow : ∀ (fuel : ℕ) (s : ℕ) (i : ℤ) (err : Option ℚ),
      msClusterLoop (fun n : ℕ => (n + 1, 1)) 0 0 fuel s i err = none := by
    intro fuel
    induction fuel with
    | zero => intro s i err; rfl
    | succ fuel ih =>
      intro s i err
      show (if (1 : ℚ) ≤ 0 then _ else _) = none
      rw [if_neg (by norm_num)]
      exact ih _ _ _
  exact grow 50 0 0 none

/-! ## Collation (`collate` of the current shifters, called by `Cluster`
through `Shifter.Centers`)

`collate(kc, h)` walks the final mode positions in original index order.  For
mode `i` it queries the kd-tree of all mode positions with a `DistKeeper(h)`
(every mode at squared distance at most `h`, the mode itself included at
distance 0), averages the neighbours' positions into `wp.Point` (each
coordinate accumulated as `p.Point[j] / count`), claims every neighbour whose
`ID` is still non-negative (`wp.Members = append(...)`, then `p.ID = -1`), and
inserts `wp` into the center tree only when no existing center sits at
distance 0 from it.  Centers whose member list stayed empty are dropped from
the returned slice.  `Init` numbered the modes `ID = 0..n-1`. -/

def sqdPt (a b : ℚ × ℚ) : ℚ :=
  (a.1 - b.1) * (a.1 - b.1) + (a.2 - b.2) * (a.2 - b.2)

structure CollateCenter where
  pos : ℚ × ℚ
  members : List ℕ
deriving Repr, DecidableEq

/-- The neighbourhood `NearestSet` hands `collate` for mode `i`: every mode
index whose position lies within squared distance `h` of mode `i`'s position
(`i` itself always qualifies at distance 0 when `0 ≤ h`). -/
def collateNbr (h : ℚ) (ps : List (ℚ × ℚ)) (i : ℕ) : List ℕ :=
  (List.range ps.length).filter fun m =>
    sqdPt (ps.getD m (0, 0)) (ps.getD i (0, 0)) ≤ h

/-- The candidate merged-center position for mode `i`: each neighbour
contributes `p.Point[j] / count` to `wp.Point[j]`. -/
def collateWp (h : ℚ) (ps : List (ℚ × ℚ)) (i : ℕ) : ℚ × ℚ :=
  (((collateNbr h ps i).map fun m =>
      (ps.getD m (0, 0)).1 / ((collateNbr h ps i).length : ℚ)).sum,
   ((collateNbr h ps i).map fun m =>
      (ps.getD m (0, 0)).2 / ((collateNbr h ps i).length : ℚ)).sum)

/-- The neighbours of mode `i` whose `ID` is still non-negative (`p.ID >= 0`):
the ones this iteration claims into `wp.Members`. -/
def collateFresh (h : ℚ) (ps : List (ℚ × ℚ)) (i : ℕ) (ids : ℕ → ℤ) : List ℕ :=
  (collateNbr h ps i).filter fun m => 0 ≤ ids m

/-- One iteration of `collate`'s loop for mode index `i`, acting on the `ID`
state (a mode's `ID`, `-1` once claimed) and the accumulated center tree
(kept in insertion order): claim the fresh neighbours, and insert `wp` only
when no existing center sits at distance 0 from it — the freshly claimed
members are dropped with a skipped duplicate. -/
def collateIter (h : ℚ) (ps : List (ℚ × ℚ)) (st : (ℕ → ℤ) × List CollateCenter)
    (i : ℕ) : (ℕ → ℤ) × List CollateCenter :=
  (fun m => if m ∈ collateFresh h ps i st.1 then -1 else st.1 m,
   if st.2.any fun c => c.pos = collateWp h ps i then st.2
   else st.2 ++ [{ pos := collateWp h ps i,
                   members := (collateFresh h ps i st.1).map fun m => (st.1 m).toNat }])

/-- `collate`: run the loop over all mode indices starting from the
`Init`-assigned IDs `0..n-1` and an empty center tree, then drop zero-member
centers. -/
def collate (h : ℚ) (ps : List (ℚ × ℚ)) : List CollateCenter :=
  (((List.range ps.length).foldl (collateIter h ps) (fun m => (m : ℤ), [])).2).filter
    fun c => !c.members.isEmpty

/-- The invariant `collate`'s loop maintains: every `ID` is either still its
original index or `-1`; the member lists accumulated across all centers (kept
or not) repeat no index; and every accumulated member is an in-range index
that has been claimed. -/
def CollateInv (n : ℕ) (ids : ℕ → ℤ) (centers : List CollateCenter) : Prop :=
  (∀ m, ids m = (m : ℤ) ∨ ids m = -1) ∧
  (centers.flatMap CollateCenter.members).Nodup ∧
  (∀ m ∈ centers.flatMap CollateCenter.members, m < n ∧ ids m = -1)

theorem collateIter_inv (h : ℚ) (ps : List (ℚ × ℚ)) (i : ℕ)
    (ids : ℕ → ℤ) (centers : List CollateCenter)
    (hinv : CollateInv ps.length ids centers) :
    CollateInv ps.length (collateIter h ps (ids, centers) i).1
      (collateIter h ps (ids, centers) i).2 := by
  obtain ⟨hids, hnd, hmem⟩ := hinv
  have hfresh_lt : ∀ m ∈ collateFresh h ps i ids, m < ps.length := by
    intro m hm
    have h1 : m ∈ collateNbr h ps i := List.mem_of_mem_filter hm
    have h2 : m ∈ List.range ps.length := List.mem_of_mem_filter h1
    exact List.mem_range.mp h2
  have hfresh_id : ∀ m ∈ collateFresh h ps i ids, ids m = (m : ℤ) := by
    intro m hm
    have hpos : 0 ≤ ids m := by
      have := List.of_mem_filter hm
      exact of_decide_eq_true this
    rcases hids m with h' | h'
    · exact h'
    · rw [h'] at hpos; omega
  have hfresh_nd : (collateFresh h ps i ids).Nodup :=
    ((List.nodup_range _).filter _).filter _
  have hmembers : ((collateFresh h ps i ids).map fun m => (ids m).toNat) =
      collateFresh h ps i ids := by
    calc ((collateFresh h ps i ids).map fun m => (ids m).toNat)
        = (collateFresh h ps i ids).map id := by
          apply List.map_congr_left
          intro m hm
          rw [hfresh_id m hm]
          simp
      _ = collateFresh h ps i ids := List.map_id _
  have hids' : ∀ m, (collateIter h ps (ids, centers) i).1 m = (m : ℤ) ∨
      (collateIter h ps (ids, centers) i).1 m = -1 := by
    intro m
    show (if m ∈ collateFresh h ps i ids then (-1 : ℤ) else ids m) = _ ∨
      (if m ∈ collateFresh h ps i ids then (-1 : ℤ) else ids m) = -1
    by_cases hm : m ∈ collateFresh h ps i ids
    · rw [if_pos hm]; right; rfl
    · rw [if_neg hm]; exact hids m
  refine ⟨hids', ?_, ?_⟩
  · show ((if centers.any fun c => c.pos = collateWp h ps i then centers
      else centers ++ [_]).flatMap CollateCenter.members).Nodup
    by_cases hdup : centers.any fun c => c.pos = collateWp h ps i
    · rw [if_pos hdup]; exact hnd
    · rw [if_neg hdup, List.flatMap_append, List.flatMap_singleton, hmembers]
      rw [List.nodup_append]
      refine ⟨hnd, hfresh_nd, ?_⟩
      intro m hmold hmfresh
      have h1 := (hmem m hmold).2
      have h2 := hfresh_id m hmfresh
      rw [h1] at h2
      omega
  · intro m hm
    show m < ps.length ∧ (if m ∈ collateFresh h ps i ids then (-1 : ℤ) else ids m) = -1
    simp only [collateIter] at hm
    by_cases hdup : centers.any fun c => c.pos = collateWp h ps i
    · rw [if_pos hdup] at hm
      refine ⟨(hmem m hm).1, ?_⟩
      by_cases hmf : m ∈ collateFresh h ps i ids
      · rw [if_pos hmf]
      · rw [if_neg hmf]; exact (hmem m hm).2
    · rw [if_neg hdup, List.flatMap_append, List.flatMap_singleton, hmembers,
        List.mem_append] at hm
      rcases hm with hmold | hmfresh
      · refine ⟨(hmem m hmold).1, ?_⟩
        by_cases hmf : m ∈ collateFresh h ps i ids
        · rw [if_pos hmf]
        · rw [if_neg hmf]; exact (hmem m hmold).2
      · exact ⟨hfresh_lt m hmfresh, by rw [if_pos hmfresh]⟩

theorem flatMap_filter_sublist {α β : Type} (f : α → List β) (p : α → Bool) :
    ∀ cs : List α, List.Sublist ((cs.filter p).flatMap f) (cs.flatMap f) := by
  intro cs
  induction cs with
  | nil => simp
  | cons c cs ih =>
    by_cases hp : p c
    · rw [List.filter_cons_of_pos hp, List.flatMap_cons, List.flatMap_cons]
      exact ih.append_left (f c)
    · rw [List.filter_cons_of_neg (by simpa using hp), List.flatMap_cons]
      exact ih.trans (List.sublist_append_right (f c) _)

/-- C1, amended: for every bandwidth parameter and every list of mode
positions, the member lists `collate` returns are pairwise disjoint with no
index repeated (their concatenation has no duplicates), every member is an
original index below `n`, and zero-member centers are dropped.  Exact
coverage of `{0..n-1}` is what fails (see the counterexample): when a mode's
collation average coincides with an already-inserted center, the members just
claimed are dropped along with the skipped duplicate. -/
theorem collate_members_nodup_bounded (h : ℚ) (ps : List (ℚ × ℚ)) :
    ((collate h ps).flatMap CollateCenter.members).Nodup ∧
    (∀ m ∈ (collate h ps).flatMap CollateCenter.members, m < ps.length) ∧
    (∀ c ∈ collate h ps, c.members ≠ []) := by
  have hfold : ∀ (l : List ℕ) (st : (ℕ → ℤ) × List CollateCenter),
      CollateInv ps.length st.1 st.2 →
      CollateInv ps.length (l.foldl (collateIter h ps) st).1
        (l.foldl (collateIter h ps) st).2 := by
    intro l
    induction l with
    | nil => intro st hst; exact hst
    | cons i l ih =>
      intro st hst
      exact ih _ (collateIter_inv h ps i st.1 st.2 hst)
  have hinv0 : CollateInv ps.length (fun m => (m : ℤ)) [] :=
    ⟨fun m => Or.inl rfl, List.nodup_nil, by simp⟩
  obtain ⟨-, hnd, hmem⟩ :=
    hfold (List.range ps.length) (fun m => (m : ℤ), []) hinv0
  have hsub : List.Sublist ((collate h ps).flatMap CollateCenter.members)
      ((((List.range ps.length).foldl (collateIter h ps)
        (fun m => (m : ℤ), [])).2).flatMap CollateCenter.members) :=
    flatMap_filter_sublist _ _ _
  refine ⟨hnd.sublist hsub, ?_, ?_⟩
  · intro m hm
    exact (hmem m (hsub.subset hm)).1
  · intro c hc
    have := List.of_mem_filter hc
    simp only [Bool.not_eq_true'] at this
    intro hnil
    rw [hnil] at this
    simp at this

/-- Five mode positions on which collation loses points.  With squared radius
9, mode 0's neighbourhood is `{0, 1, 3}` (average `(2, 2)`) and mode 1's
neighbourhood is all five points (average `(10/5, 10/5) = (2, 2)` as well):
processing mode 1 claims the still-fresh indices 2 and 4 but skips inserting
its center — a center already sits at exactly `(2, 2)` — so those two indices
end up in no member list.  All pairwise squared distances lie in
`{2, 8, 10, 32}`, so a `TruncGauss` kernel with bandwidth `h = 9` and
oversample `1/81` (shift query radius `h*h*oversample = 1`) leaves every mode
in place on the first shift, `delta = 0` converges at once, and `Cluster`
collates these very positions with `Bandwidth() = 9`. -/
def lostPts : List (ℚ × ℚ) := [(1, 3), (2, 2), (0, 0), (3, 1), (4, 4)]

set_option maxHeartbeats 1000000 in
/-- C1, counterexample: on `lostPts` (5 points) the collation of a completed,
error-free run returns a single merged center with member indices
`[0, 1, 3]`; indices 2 and 4 are claimed but dropped, so the member-index
sets do not cover `{0..4}` — no exact partition. -/
theorem collate_partition_counterexample :
    lostPts.length = 5 ∧
    (collate 9 lostPts).map CollateCenter.members = [[0, 1, 3]] ∧
    ¬ (2 ∈ (collate 9 lostPts).flatMap CollateCenter.members) ∧
    ¬ (4 ∈ (collate 9 lostPts).flatMap CollateCenter.members) := by
  refine ⟨rfl, ?_, ?_, ?_⟩ <;>
    norm_num [collate, collateIter, collateNbr, collateWp, collateFresh, lostPts, sqdPt,
      List.range_succ, List.filter_cons, List.filter_nil, List.foldl, Prod.ext_iff,
      Prod.fst_one, Prod.snd_one, List.flatMap_cons, List.flatMap_nil]

end BiogoCluster
